import Mathlib

/-!
# Verification of the trivia-quiz client (`src/script.js`)

A shallow embedding of the browser quiz application in `src/script.js`,
together with proofs and refutations of the specification's claims.

Modelling conventions:

* JavaScript strings are Lean `String`s; most string processing is done on
  `List Char` (`String.data`), which matches JavaScript's per-code-unit
  operations on the ASCII inputs that arise here.
* Host (browser) primitives — `localStorage`, the cookie jar,
  `encodeURIComponent` / `decodeURIComponent`, `JSON.stringify` /
  `JSON.parse`, the DOM — are external black boxes to the repository; they
  are modelled executably, restricted to the value shapes this program
  actually produces (JSON arrays of `{username, score}` objects, percent
  escapes, UTF-8).
* A thrown JavaScript exception is modelled by `Except.error` (or an
  `Option String` "escaped exception" slot when an exception would
  propagate out of an event handler or a promise chain).
-/

namespace Script

/-- A persisted score record, `{ username, score }` as pushed by
`saveScore` (`src/script.js` lines 256-266). -/
structure ScoreEntry where
  username : String
  score : Nat
deriving Repr, DecidableEq

/-- One element of the trivia API's `results` array:
`{ question, correct_answer, incorrect_answers }` (spec §6, and the fields
read by `displayQuestions` / `createAnswerOptions`). -/
structure Question where
  question : String
  correct_answer : String
  incorrect_answers : List String
deriving Repr, DecidableEq

/-! ## Decimal digits (the number part of `JSON.stringify`/`JSON.parse`) -/

/-- Decimal digit characters of `n`, most significant first, as
`JSON.stringify` prints a non-negative integer. -/
def natDigitsCore (n : Nat) : List Char :=
  if h : n < 10 then [Char.ofNat (48 + n)]
  else natDigitsCore (n / 10) ++ [Char.ofNat (48 + n % 10)]
  decreasing_by exact Nat.div_lt_self (by omega) (by omega)

/-- Consume a maximal run of decimal digits, folding them onto `acc`,
as a JSON number scanner does. -/
def readDigits : List Char → Nat → Nat × List Char
  | [], acc => (acc, [])
  | c :: cs, acc =>
    if c.isDigit then readDigits cs (acc * 10 + (c.toNat - 48)) else (acc, c :: cs)

/-! ## `JSON.stringify` / `JSON.parse` on the ledger's value shape

`saveScore` stores `JSON.stringify(scoresArray)` where `scoresArray` is an
array of `{ username, score }` objects, and reads it back with
`JSON.parse`.  The host JSON functions are modelled on exactly that value
shape: `scoresChars` is the character sequence `JSON.stringify` produces
(for usernames with no characters JSON escapes), and `parseScoresChars` is
a scanner accepting precisely those sequences — any string `parseScoresChars`
accepts, `JSON.parse` accepts with the same value, and `JSON.parse` throws
a `SyntaxError` on strings that are not JSON at all, as `parseScoresChars`
rejects them. -/

/-- `true` when `JSON.stringify` emits the character unescaped inside a
string literal (not `"`, not `\`, not a control character). -/
def jsonSafeChar (c : Char) : Bool :=
  c ≠ '"' && c ≠ '\\' && 32 ≤ c.toNat

/-- A string `JSON.stringify` prints verbatim between quotes. -/
def jsonSafe (s : String) : Bool := s.data.all jsonSafeChar

/-- Characters of `JSON.stringify({username, score})`. -/
def entryChars (e : ScoreEntry) : List Char :=
  "\x7b\"username\":\"".data ++ e.username.data ++ "\",\"score\":".data
    ++ natDigitsCore e.score ++ "\x7d".data

/-- `Array.prototype` elements joined with `","`, as inside
`JSON.stringify` of an array. -/
def joinCommas : List (List Char) → List Char
  | [] => []
  | [x] => x
  | x :: xs => x ++ ',' :: joinCommas xs

/-- Characters of `JSON.stringify(scoresArray)`. -/
def scoresChars (l : List ScoreEntry) : List Char :=
  '[' :: joinCommas (l.map entryChars) ++ [']']

/-- The string `saveScore` writes to `localStorage` for a given array. -/
def stringifyScores (l : List ScoreEntry) : String := ⟨scoresChars l⟩

/-- Strip an expected literal prefix; `none` when the input does not start
with it (the JSON scanner's way of demanding literal text). -/
def stripLit : List Char → List Char → Option (List Char)
  | [], cs => some cs
  | _ :: _, [] => none
  | p :: ps, c :: cs => if c = p then stripLit ps cs else none

/-- Scan one `{"username":"...","score":NUM\x7d` object. -/
def parseEntry (cs : List Char) : Option (ScoreEntry × List Char) :=
  match stripLit "\x7b\"username\":\"".data cs with
  | none => none
  | some cs1 =>
    let uname := cs1.takeWhile (· ≠ '"')
    let cs2 := cs1.dropWhile (· ≠ '"')
    match stripLit "\",\"score\":".data cs2 with
    | none => none
    | some cs3 =>
      match cs3 with
      | [] => none
      | c :: _ =>
        if c.isDigit then
          match readDigits cs3 0 with
          | (n, '\x7d' :: cs5) => some (⟨⟨uname⟩, n⟩, cs5)
          | _ => none
        else none

/-- Scan a non-empty comma-separated run of objects (fuel-bounded). -/
def parseEntriesAux : Nat → List Char → Option (List ScoreEntry × List Char)
  | 0, _ => none
  | fuel + 1, cs =>
    match parseEntry cs with
    | none => none
    | some (e, rest) =>
      match rest with
      | ',' :: rest2 =>
        match parseEntriesAux fuel rest2 with
        | some (es, r) => some (e :: es, r)
        | none => none
      | _ => some ([e], rest)

/-- Scan a whole `[...]` array of score objects; `none` models `JSON.parse`
throwing a `SyntaxError`. -/
def parseScoresChars (cs : List Char) : Option (List ScoreEntry) :=
  match cs with
  | '[' :: rest =>
    if rest = [']'] then some []
    else
      match parseEntriesAux (rest.length + 1) rest with
      | some (es, [']']) => some es
      | _ => none
  | _ => none

/-- The read half of `saveScore` (`src/script.js` lines 257-259):
`localStorage.getItem("triviaScores")` followed by
`storedScores ? JSON.parse(storedScores) : []`.  A missing (`null`) or
empty stored value is falsy and yields `[]`; otherwise `JSON.parse` runs
with no surrounding `try`/`catch`, so a stored string that is not valid
JSON makes the whole call throw (`Except.error`). -/
def readStoredScores (store : Option String) : Except String (List ScoreEntry) :=
  match store with
  | none => .ok []
  | some s =>
    if s = "" then .ok []
    else
      match parseScoresChars s.data with
      | some l => .ok l
      | none => .error "SyntaxError: Unexpected token"

/-- `saveScore(username, score)` (`src/script.js` lines 256-266): read the
stored array, push `{ username, score }`, write the serialized array back.
The result is the new value of `localStorage.getItem("triviaScores")`, or
`Except.error` when the read path threw. -/
def saveScore (store : Option String) (username : String) (score : Nat) :
    Except String (Option String) :=
  match readStoredScores store with
  | .error e => .error e
  | .ok arr => .ok (some (stringifyScores (arr ++ [⟨username, score⟩])))

/-! ## Host `encodeURIComponent` / `decodeURIComponent` and the cookie jar

`setCookie` / `getCookie` / `clearCookie` (`src/script.js` lines 25-57) go
through the host cookie jar and URI percent-coding.  The host functions
are modelled executably: `encodeURIComponent` leaves the ECMAScript
unescaped set (`A-Z a-z 0-9 - _ . ! ~ * ' ( )`) and percent-encodes the
UTF-8 bytes of every other character; `decodeURIComponent` is the reverse
scan.  The jar keeps `(name, value, expiry)` records: assigning
`document.cookie = "n=v;expires=E;path=/"` upserts the record for `n`, and
reading `document.cookie` yields the non-expired `name=value` pairs joined
by `"; "`, with the attributes never echoed back. -/

/-- The characters `encodeURIComponent` leaves unescaped, by code point:
`A-Z`, `a-z`, `0-9`, `-`, `_`, `.`, `!`, `~`, `*`, `(`, `)` and the
apostrophe (code 39). -/
def uriUnreservedChar (c : Char) : Bool :=
  let n := c.toNat
  (65 ≤ n && n ≤ 90) || (97 ≤ n && n ≤ 122) || (48 ≤ n && n ≤ 57)
    || n = 45 || n = 95 || n = 46 || n = 33 || n = 126 || n = 42
    || n = 39 || n = 40 || n = 41

/-- Uppercase hexadecimal digit, as percent-escapes print it. -/
def hexDigit (n : Nat) : Char :=
  if n < 10 then Char.ofNat (48 + n) else Char.ofNat (55 + n)

/-- UTF-8 bytes of one scalar value. -/
def utf8Bytes (c : Char) : List Nat :=
  let n := c.toNat
  if n < 128 then [n]
  else if n < 2048 then [192 + n / 64, 128 + n % 64]
  else if n < 65536 then [224 + n / 4096, 128 + n / 64 % 64, 128 + n % 64]
  else [240 + n / 262144, 128 + n / 4096 % 64, 128 + n / 64 % 64, 128 + n % 64]

/-- Percent-encoding of one character. -/
def encodeChar (c : Char) : List Char :=
  if uriUnreservedChar c then [c]
  else ((utf8Bytes c).map (fun b => ['%', hexDigit (b / 16), hexDigit (b % 16)])).flatten

/-- Host `encodeURIComponent`. -/
def encodeURIComponent (s : String) : String := ⟨(s.data.map encodeChar).flatten⟩

/-- Value of a hexadecimal digit character (0 on a non-digit; the host
instead throws `URIError`, a case that never arises below). -/
def hexVal (c : Char) : Nat :=
  let n := c.toNat
  if 48 ≤ n && n ≤ 57 then n - 48
  else if 65 ≤ n && n ≤ 70 then n - 55
  else if 97 ≤ n && n ≤ 102 then n - 87
  else 0

/-- First phase of `decodeURIComponent`: turn `%HH` escapes into bytes and
other characters into their UTF-8 bytes. -/
def percentDecodeBytes : List Char → List Nat
  | [] => []
  | c :: rest =>
    if c = '%' then
      match rest with
      | h1 :: h2 :: rest2 => (16 * hexVal h1 + hexVal h2) :: percentDecodeBytes rest2
      | other => utf8Bytes c ++ percentDecodeBytes other
    else utf8Bytes c ++ percentDecodeBytes rest

/-- One step of UTF-8 decoding: the scalar led by byte `b`, and the bytes
left over (U+FFFD on a truncated sequence; valid input only below). -/
def utf8DecodeStep (b : Nat) (rest : List Nat) : Char × List Nat :=
  if b < 128 then (Char.ofNat b, rest)
  else if b < 224 then
    match rest with
    | b2 :: rest2 => (Char.ofNat ((b - 192) * 64 + (b2 - 128)), rest2)
    | [] => (Char.ofNat 65533, [])
  else if b < 240 then
    match rest with
    | b2 :: b3 :: rest3 =>
      (Char.ofNat ((b - 224) * 4096 + (b2 - 128) * 64 + (b3 - 128)), rest3)
    | _ => (Char.ofNat 65533, [])
  else
    match rest with
    | b2 :: b3 :: b4 :: rest4 =>
      (Char.ofNat ((b - 240) * 262144 + (b2 - 128) * 4096 + (b3 - 128) * 64
        + (b4 - 128)), rest4)
    | _ => (Char.ofNat 65533, [])

/-- Fuel-bounded UTF-8 decoding loop (the fuel only serves structural
recursion; `utf8DecodeBytes` supplies enough of it that it never runs
out, since every step consumes at least one byte). -/
def utf8DecodeAux : Nat → List Nat → List Char
  | 0, _ => []
  | _, [] => []
  | fuel + 1, b :: rest =>
    (utf8DecodeStep b rest).1 :: utf8DecodeAux fuel (utf8DecodeStep b rest).2

/-- Second phase of `decodeURIComponent`: UTF-8 decoding of the byte
sequence. -/
def utf8DecodeBytes (bs : List Nat) : List Char := utf8DecodeAux (bs.length + 1) bs

/-- Host `decodeURIComponent`. -/
def decodeURIComponent (s : String) : String :=
  ⟨utf8DecodeBytes (percentDecodeBytes s.data)⟩

/-- One record of the browser cookie jar (stored in encoded form). -/
structure Cookie where
  name : String
  value : String
  expires : Int
deriving Repr, DecidableEq

/-- Assigning `document.cookie = "n=v;expires=E;path=/"`: replace the
record named `n` or add one. -/
def jarUpsert : List Cookie → String → String → Int → List Cookie
  | [], n, v, e => [⟨n, v, e⟩]
  | c :: rest, n, v, e =>
    if c.name = n then ⟨n, v, e⟩ :: rest else c :: jarUpsert rest n v e

/-- `setCookie(name, value, days)` (`src/script.js` lines 25-31): expiry is
`now + days*24*60*60*1000` milliseconds, name and value URI-encoded. -/
def setCookie (now : Int) (jar : List Cookie) (name value : String) (days : Int) :
    List Cookie :=
  jarUpsert jar (encodeURIComponent name) (encodeURIComponent value)
    (now + days * 86400000)

/-- `clearCookie(name)` (`src/script.js` lines 53-57): empty value, expiry
at the epoch (`Thu, 01 Jan 1970 00:00:00 GMT`, i.e. 0 ms), which makes the
browser drop the cookie. -/
def clearCookie (jar : List Cookie) (name : String) : List Cookie :=
  jarUpsert jar (encodeURIComponent name) "" 0

/-- `"; "`-joined pair list, as `document.cookie` reads back. -/
def joinCookiePairs : List (List Char) → List Char
  | [] => []
  | [x] => x
  | x :: xs => x ++ ';' :: ' ' :: joinCookiePairs xs

/-- Reading `document.cookie` at time `now`: the non-expired records as
`name=value`, joined by `"; "`. -/
def cookieStringChars (now : Int) (jar : List Cookie) : List Char :=
  joinCookiePairs ((jar.filter (fun c => now < c.expires)).map
    (fun c => c.name.data ++ '=' :: c.value.data))

/-- `String.prototype.split(";")`. -/
def splitOnSemicolon : List Char → List (List Char)
  | [] => [[]]
  | c :: rest =>
    if c = ';' then [] :: splitOnSemicolon rest
    else
      match splitOnSemicolon rest with
      | g :: gs => (c :: g) :: gs
      | [] => [[c]]

/-- Whitespace for `String.prototype.trim` (the cases that can occur in a
cookie string). -/
def isJsSpace (c : Char) : Bool :=
  c = ' ' || c = '\t' || c = '\n' || c = '\r' || c = '\x0b' || c = '\x0c'

/-- `String.prototype.trim`. -/
def trimChars (cs : List Char) : List Char :=
  ((cs.dropWhile isJsSpace).reverse.dropWhile isJsSpace).reverse

/-- `String.prototype.trim` on whole strings (see `trimChars`). -/
def jsTrim (s : String) : String := ⟨trimChars s.data⟩

/-- `getCookie(name)` (`src/script.js` lines 33-45): decode the whole
cookie string first, split on `";"`, trim each part, and return the text
after the first `name=` prefix, else `null` (`none`).  Decoding before
splitting is the behaviour under test in the session round-trip claim. -/
def getCookie (now : Int) (jar : List Cookie) (name : String) : Option String :=
  let decoded := utf8DecodeBytes (percentDecodeBytes (cookieStringChars now jar))
  let target := name.data ++ ['=']
  (splitOnSemicolon decoded).findSome? (fun g =>
    let t := trimChars g
    if target.isPrefixOf t then some ⟨t.drop target.length⟩ else none)

/-! ## QuizView: rendering questions and answer options -/

/-- One rendered radio `<label>`: its text, and whether the markup carries
the `data-correct="true"` tag (`createAnswerOptions` tags an option
exactly when its text equals `correctAnswer`). -/
structure AnswerOption where
  text : String
  isCorrect : Bool
deriving Repr, DecidableEq

/-- One rendered question block: the question text and its radio
options, grouped under one `name="answer<i>"`. -/
structure RenderedQuestion where
  text : String
  options : List AnswerOption
deriving Repr, DecidableEq

/-- One comparator-driven insertion step: `coin k` is the sign of the
`k`-th call of the comparator `() => Math.random() - 0.5`.  The host
`Array.prototype.sort` under this inconsistent comparator returns an
engine-dependent permutation of its input; the permutation is modelled by
an insertion sort consuming the stream of comparator outcomes. -/
def insertCmp (coin : Nat → Bool) : Nat → String → List String → List String × Nat
  | k, a, [] => ([a], k)
  | k, a, x :: xs =>
    if coin k then (a :: x :: xs, k + 1)
    else
      let p := insertCmp coin (k + 1) a xs
      (x :: p.1, p.2)

/-- Comparator-driven sort of a whole list (see `insertCmp`). -/
def sortCmp (coin : Nat → Bool) : Nat → List String → List String × Nat
  | k, [] => ([], k)
  | k, x :: xs =>
    let p := sortCmp coin k xs
    insertCmp coin p.2 x p.1

/-- The shuffle `array.sort(() => Math.random() - 0.5)` of
`createAnswerOptions` (`src/script.js` lines 157-159). -/
def randSort (coin : Nat → Bool) (l : List String) : List String :=
  (sortCmp coin 0 l).1

/-- `createAnswerOptions(correctAnswer, incorrectAnswers, questionIndex)`
(`src/script.js` lines 152-172): shuffle `[correctAnswer,
...incorrectAnswers]` and render one radio per answer, tagged
`data-correct="true"` exactly when `answer === correctAnswer`. -/
def createAnswerOptions (coin : Nat → Bool) (correctAnswer : String)
    (incorrectAnswers : List String) : List AnswerOption :=
  (randSort coin (correctAnswer :: incorrectAnswers)).map
    (fun answer => ⟨answer, answer == correctAnswer⟩)

/-- The question block `displayQuestions` builds for one question. -/
def renderQuestion (coin : Nat → Bool) (q : Question) : RenderedQuestion :=
  ⟨q.question, createAnswerOptions coin q.correct_answer q.incorrect_answers⟩

/-- Worker for `displayQuestions`: the block at position `i` uses the
comparator stream `coins i`. -/
def displayQuestionsFrom (coins : Nat → Nat → Bool) :
    Nat → List Question → List RenderedQuestion
  | _, [] => []
  | i, q :: qs => renderQuestion (coins i) q :: displayQuestionsFrom coins (i + 1) qs

/-- `displayQuestions(questions)` (`src/script.js` lines 129-143): clear
the container (the result replaces any previous contents wholesale) and
append one block per question. -/
def displayQuestions (coins : Nat → Nat → Bool) (questions : List Question) :
    List RenderedQuestion :=
  displayQuestionsFrom coins 0 questions

/-! ## Score calculation -/

/-- Whether the radio selected for one rendered question (if any) carries
the `data-correct="true"` tag.  `s` is the index of the checked radio in
the question's group; the DOM allows at most one checked radio per
`name` group. -/
def selectedCorrect (r : RenderedQuestion) (s : Option Nat) : Bool :=
  match s with
  | none => false
  | some i =>
    match r.options.get? i with
    | some o => o.isCorrect
    | none => false

/-- `calculateScore()` (`src/script.js` lines 222-236): iterate the
checked radios of the question container and count those whose
`dataset.correct === "true"`. -/
def calculateScore (rendered : List RenderedQuestion) (sel : List (Option Nat)) : Nat :=
  (rendered.zip sel).countP (fun p => selectedCorrect p.1 p.2)

/-- Whether the question at position `i` has its correct choice selected. -/
def selectedCorrectAt (rendered : List RenderedQuestion) (sel : List (Option Nat))
    (i : Nat) : Bool :=
  match (rendered.zip sel)[i]? with
  | some p => selectedCorrect p.1 p.2
  | none => false

/-- The number of correctly selected answers: how many question positions
currently have their correct choice selected. -/
def correctlySelectedCount (rendered : List RenderedQuestion)
    (sel : List (Option Nat)) : Nat :=
  (List.range rendered.length).countP (fun i => selectedCorrectAt rendered sel i)

/-! ## Application state and event handlers -/

/-- The page state the script manipulates: the clock, the cookie jar, the
`triviaScores` entry of `localStorage`, the username input, the score
table's `<tbody>` rows, the rendered question container with the current
radio selections, the alerts and console-error log emitted so far, and
the visibility of the new-player button, the loading indicator and the
question container. -/
structure AppState where
  now : Int
  jar : List Cookie
  store : Option String
  usernameField : String
  tableRows : List (String × Nat)
  rendered : List RenderedQuestion
  sel : List (Option Nat)
  alerts : List String
  logs : List String
  newPlayerHidden : Bool
  loadingHidden : Bool
  questionHidden : Bool
deriving Repr, DecidableEq

/-- `showLoading(isLoading)` (`src/script.js` lines 116-123): the loading
container is visible exactly while loading, the question container
exactly while not loading. -/
def showLoading (st : AppState) (isLoading : Bool) : AppState :=
  { st with loadingHidden := !isLoading, questionHidden := isLoading }

/-- `checkUsername()` (`src/script.js` lines 59-62): copy the cookie into
the username input (assigning `null` to `input.value` yields `""`). -/
def checkUsername (st : AppState) : AppState :=
  { st with usernameField := (getCookie st.now st.jar "triviaUsername").getD "" }

/-- `checkUserSession()` (`src/script.js` lines 68-90): a truthy saved
username restores it and reveals the new-player button; otherwise the
field is blanked and the button hidden. -/
def checkUserSession (st : AppState) : AppState :=
  match getCookie st.now st.jar "triviaUsername" with
  | some s =>
    if s ≠ "" then { st with usernameField := s, newPlayerHidden := false }
    else { st with usernameField := "", newPlayerHidden := true }
  | none => { st with usernameField := "", newPlayerHidden := true }

/-- The synchronous part of `fetchQuestions()` (`src/script.js` lines
96-99): show the loading state and issue the request; the completion is a
separate event (`fetchQuestionsComplete`). -/
def fetchQuestionsStart (st : AppState) : AppState := showLoading st true

/-- Completion of the promise chain of `fetchQuestions()` (`src/script.js`
lines 99-108).  `outcome` is `Except.ok data.results` for a successful
fetch-and-parse and `Except.error` for a network or JSON failure, which
the `.catch` handler logs before hiding the loading state.  The second
component is the exception escaping the chain to the page: `.catch`
terminates the chain without rethrowing, so it is always `none`. -/
def fetchQuestionsComplete (coins : Nat → Nat → Bool) (st : AppState)
    (outcome : Except String (List Question)) : AppState × Option String :=
  match outcome with
  | .ok questions =>
    let st2 := { st with
      rendered := displayQuestions coins questions,
      sel := List.replicate questions.length none }
    (showLoading st2 false, none)
  | .error e =>
    (showLoading { st with logs := st.logs ++ ["Error fetching questions: " ++ e] } false,
      none)

/-- `handleFormSubmit(event)` (`src/script.js` lines 182-215): trim the
username; when empty, alert and return with nothing else touched.
Otherwise write the cookie unless the saved username already equals the
new one, compute the score, append to the ledger (`saveScore`), append one
row to the score table (`updateScoreTable`, lines 243-254), alert the
final score, unhide the new-player button and re-run `checkUserSession`.
The second component is the exception escaping the handler: `some` when
`saveScore` threw (its `JSON.parse` has no `try`/`catch`), in which case
the later statements never run. -/
def handleFormSubmit (st : AppState) : AppState × Option String :=
  let username := jsTrim st.usernameField
  if username = "" then
    ({ st with alerts := st.alerts ++ ["Please enter your name before ending the game"] },
      none)
  else
    let existing := getCookie st.now st.jar "triviaUsername"
    let jar2 := if existing = some username then st.jar
      else setCookie st.now st.jar "triviaUsername" username 7
    let score := calculateScore st.rendered st.sel
    match saveScore st.store username score with
    | .error e => ({ st with jar := jar2 }, some e)
    | .ok store2 =>
      let st2 := { st with
        jar := jar2,
        store := store2,
        tableRows := st.tableRows ++ [(username, score)],
        alerts := st.alerts
          ++ ["Game finished! Your score is " ++ toString score ++ "."],
        newPlayerHidden := false }
      (checkUserSession st2, none)

/-- `newPlayer()` (`src/script.js` lines 271-288): clear the cookie, blank
and reset the form (which also clears the radio selections), empty the
question container, start a fresh fetch and hide the new-player
button. -/
def newPlayer (st : AppState) : AppState :=
  let st1 := { st with jar := clearCookie st.jar "triviaUsername", usernameField := "" }
  let st2 := { st1 with rendered := [], sel := [] }
  let st3 := fetchQuestionsStart st2
  { st3 with newPlayerHidden := true }

/-! ## The DOMContentLoaded initializer -/

/-- The function names defined inside the DOMContentLoaded closure of
`src/script.js`.  `displayScores`, called at line 15, is not among them:
no declaration of that name exists anywhere in the file. -/
def definedFunctions : List String :=
  ["setCookie", "getCookie", "clearCookie", "checkUsername", "checkUserSession",
   "fetchQuestions", "showLoading", "displayQuestions", "createAnswerOptions",
   "handleFormSubmit", "calculateScore", "updateScoreTable", "saveScore",
   "newPlayer"]

/-- One statement of the initializer body. -/
inductive InitStmt where
  | call (fname : String)
  | addListener (event : String) (handler : String)
deriving Repr, DecidableEq

/-- The statements the DOMContentLoaded handler runs in order: the four
calls at lines 12-15 and the two `addEventListener` calls at lines
175-176. -/
def initStmts : List InitStmt :=
  [InitStmt.call "checkUserSession", InitStmt.call "checkUsername",
   InitStmt.call "fetchQuestions", InitStmt.call "displayScores",
   InitStmt.addListener "submit" "handleFormSubmit",
   InitStmt.addListener "click" "newPlayer"]

/-- Outcome of running the initializer: the resulting page state, the
event listeners registered, and the exception (if any) that aborted the
handler. -/
structure InitResult where
  st : AppState
  listeners : List (String × String)
  raised : Option String
deriving Repr, DecidableEq

/-- Effect of calling one of the zero-argument functions the initializer
invokes (the listener-registering statements carry no call). -/
def applyNullary (st : AppState) : String → AppState
  | "checkUserSession" => checkUserSession st
  | "checkUsername" => checkUsername st
  | "fetchQuestions" => fetchQuestionsStart st
  | _ => st

/-- Run initializer statements in order; calling a name with no definition
raises a `ReferenceError`, which aborts the rest of the handler. -/
def runInitAux : AppState → List (String × String) → List InitStmt → InitResult
  | st, ls, [] => ⟨st, ls, none⟩
  | st, ls, InitStmt.call f :: rest =>
    if definedFunctions.contains f then runInitAux (applyNullary st f) ls rest
    else ⟨st, ls, some ("ReferenceError: " ++ f ++ " is not defined")⟩
  | st, ls, InitStmt.addListener ev h :: rest => runInitAux st (ls ++ [(ev, h)]) rest

/-- The whole DOMContentLoaded handler on a given initial page state. -/
def runInit (st : AppState) : InitResult := runInitAux st [] initStmts

/-! ## Event traces (for the mid-fetch reset scenario) -/

/-- The externally observable events: entering `fetchQuestions`, a fetch
completing (with the comparator randomness observed at completion), a
click on the new-player button, a form submission. -/
inductive Ev where
  | fetchStart
  | fetchComplete (coins : Nat → Nat → Bool) (outcome : Except String (List Question))
  | newPlayerClick
  | submitForm

/-- Apply one event to the page state.  A completion event always applies
its results: the code checks no request generation, so a superseded
fetch's completion is handled like any other. -/
def step (st : AppState) : Ev → AppState
  | Ev.fetchStart => fetchQuestionsStart st
  | Ev.fetchComplete coins outcome => (fetchQuestionsComplete coins st outcome).1
  | Ev.newPlayerClick => newPlayer st
  | Ev.submitForm => (handleFormSubmit st).1

/-- Run a sequence of events. -/
def runEvents (st : AppState) (evs : List Ev) : AppState := evs.foldl step st

/-- A blank page state: empty jar, ledger and table, nothing rendered,
loading hidden, question container visible, new-player hidden, at
time 0. -/
def initialState : AppState :=
  ⟨0, [], none, "", [], [], [], [], [], true, true, false⟩

/-! ## Supporting lemmas and claim theorems -/

theorem digitChar_spec (n : Nat) (h : n < 10) :
    (Char.ofNat (48 + n)).isDigit = true ∧ (Char.ofNat (48 + n)).toNat = 48 + n := by
  interval_cases n <;> exact ⟨by decide, by decide⟩

theorem natDigitsCore_ne_nil (n : Nat) : natDigitsCore n ≠ [] := by
  rw [natDigitsCore]
  split <;> simp

theorem natDigitsCore_head_digit (n : Nat) :
    ∃ c cs, natDigitsCore n = c :: cs ∧ c.isDigit = true := by
  induction n using Nat.strong_induction_on with
  | _ n ih =>
    rw [natDigitsCore]
    split
    · exact ⟨_, _, rfl, (digitChar_spec n (by omega)).1⟩
    · obtain ⟨c, cs, hc, hd⟩ := ih (n / 10) (Nat.div_lt_self (by omega) (by omega))
      exact ⟨c, cs ++ [Char.ofNat (48 + n % 10)], by rw [hc]; rfl, hd⟩

theorem readDigits_natDigitsCore (n : Nat) :
    ∀ rest acc, readDigits (natDigitsCore n ++ rest) acc =
      readDigits rest (acc * 10 ^ (natDigitsCore n).length + n) := by
  induction n using Nat.strong_induction_on with
  | _ n ih =>
    intro rest acc
    rw [natDigitsCore]
    split
    · rename_i h
      obtain ⟨hd, ht⟩ := digitChar_spec n h
      simp [readDigits, hd, ht]
    · rename_i h
      have hlt : n / 10 < n := Nat.div_lt_self (by omega) (by omega)
      have hmod : n % 10 < 10 := Nat.mod_lt _ (by omega)
      obtain ⟨hd, ht⟩ := digitChar_spec (n % 10) hmod
      rw [List.append_assoc, List.singleton_append, ih (n / 10) hlt, readDigits]
      simp only [hd, ht, if_true, List.length_append, List.length_cons,
        List.length_nil]
      congr 1
      rw [pow_succ, ← mul_assoc]
      generalize acc * 10 ^ (natDigitsCore (n / 10)).length = A
      omega

theorem readDigits_stop (n : Nat) (rest : List Char)
    (h : ∀ c cs, rest = c :: cs → c.isDigit = false) :
    readDigits (natDigitsCore n ++ rest) 0 = (n, rest) := by
  rw [readDigits_natDigitsCore]
  cases rest with
  | nil => simp [readDigits]
  | cons c cs => simp [readDigits, h c cs rfl]

theorem stripLit_append (p : List Char) : ∀ cs, stripLit p (p ++ cs) = some cs := by
  induction p with
  | nil => intro cs; rfl
  | cons x xs ih => intro cs; simp [stripLit, ih]

theorem takeWhile_append_stop (p : Char → Bool) (u : List Char) (c : Char)
    (t : List Char) (hu : ∀ x ∈ u, p x = true) (hc : p c = false) :
    (u ++ c :: t).takeWhile p = u ∧ (u ++ c :: t).dropWhile p = c :: t := by
  induction u with
  | nil => simp [List.takeWhile, List.dropWhile, hc]
  | cons x xs ih =>
    have hx := hu x (by simp)
    have ih2 := ih (fun a ha => hu a (by simp [ha]))
    simp [List.takeWhile, List.dropWhile, hx, ih2.1, ih2.2]

theorem parseEntry_entryChars (e : ScoreEntry) (rest : List Char)
    (h : jsonSafe e.username = true) :
    parseEntry (entryChars e ++ rest) = some (e, rest) := by
  have hq : ∀ x ∈ e.username.data, (fun c => decide (c ≠ '"')) x = true := by
    intro x hx
    have hall := (List.all_eq_true.mp h) x hx
    simp only [jsonSafeChar, Bool.and_eq_true, decide_eq_true_eq] at hall
    simp [hall.1.1]
  obtain ⟨htake, hdrop⟩ := takeWhile_append_stop (fun c => decide (c ≠ '"'))
    e.username.data '"'
    (",\"score\":".data ++ (natDigitsCore e.score ++ ('\x7d' :: rest)))
    hq (by decide)
  have hread : readDigits (natDigitsCore e.score ++ ('\x7d' :: rest)) 0
      = (e.score, '\x7d' :: rest) := by
    apply readDigits_stop
    intro c cs hcs
    injection hcs with h1 h2
    subst h1
    decide
  obtain ⟨dc, dcs, hdig, hdigit⟩ := natDigitsCore_head_digit e.score
  have harr : entryChars e ++ rest
      = "\x7b\"username\":\"".data ++ (e.username.data
        ++ ('"' :: (",\"score\":".data ++ (natDigitsCore e.score ++ ('\x7d' :: rest))))) := by
    simp [entryChars, List.append_assoc]
  rw [parseEntry, harr, stripLit_append]
  simp only [htake, hdrop]
  have hk2 : ('"' :: (",\"score\":".data ++ (natDigitsCore e.score ++ ('\x7d' :: rest))))
      = "\",\"score\":".data ++ (natDigitsCore e.score ++ ('\x7d' :: rest)) := rfl
  rw [hk2, stripLit_append]
  simp only [hread]
  rw [hdig, List.cons_append]
  simp [hdigit]

theorem entryChars_length_pos (e : ScoreEntry) : 0 < (entryChars e).length := by
  simp [entryChars]

theorem joinCommas_length_ge (l : List ScoreEntry) :
    l.length ≤ (joinCommas (l.map entryChars)).length := by
  induction l with
  | nil => simp [joinCommas]
  | cons x xs ih =>
    cases xs with
    | nil =>
      have := entryChars_length_pos x
      simpa [joinCommas] using this
    | cons y ys =>
      have hx := entryChars_length_pos x
      have hJ : joinCommas ((x :: y :: ys).map entryChars)
          = entryChars x ++ ',' :: joinCommas ((y :: ys).map entryChars) := rfl
      rw [hJ]
      simp only [List.length_append, List.length_cons]
      simp only [List.length_cons] at ih ⊢
      omega

theorem parseEntriesAux_join (l : List ScoreEntry) :
    ∀ fuel rest, l ≠ [] → (∀ e ∈ l, jsonSafe e.username = true) →
      l.length ≤ fuel → (∀ cs, rest ≠ ',' :: cs) →
      parseEntriesAux fuel (joinCommas (l.map entryChars) ++ rest) = some (l, rest) := by
  induction l with
  | nil => intro fuel rest hne; exact absurd rfl hne
  | cons x xs ih =>
    intro fuel rest hne hsafe hfuel hcomma
    cases fuel with
    | zero => simp at hfuel
    | succ f =>
      have hx := hsafe x (by simp)
      cases xs with
      | nil =>
        show parseEntriesAux (f + 1) (entryChars x ++ rest) = some ([x], rest)
        rw [parseEntriesAux, parseEntry_entryChars x rest hx]
        cases rest with
        | nil => rfl
        | cons c cs =>
          have hc : c ≠ ',' := by
            intro hEq
            exact hcomma cs (by rw [hEq])
          split
          · rename_i heq
            simp at heq
          · rename_i v e2 r2 heq
            injection heq with h1
            injection h1 with h2 h3
            subst h2
            subst h3
            split
            · rename_i rest2 heq2
              injection heq2 with h4 h5
              exact absurd h4 hc
            · rfl
      | cons y ys =>
        have hJ : joinCommas ((x :: y :: ys).map entryChars)
            = entryChars x ++ ',' :: joinCommas ((y :: ys).map entryChars) := rfl
        rw [hJ, List.append_assoc, List.cons_append,
          parseEntriesAux, parseEntry_entryChars x _ hx]
        split
        · rename_i heq
          simp at heq
        · rename_i v e2 r2 heq
          injection heq with h1
          injection h1 with h2 h3
          subst h2
          subst h3
          split
          · rename_i rest2 heq2
            injection heq2 with h4 h5
            subst h5
            rw [ih f rest (by simp) (fun e he => hsafe e (by simp [he]))
              (by simp only [List.length_cons] at hfuel ⊢; omega) hcomma]
          · rename_i hnc
            exact (hnc (joinCommas ((y :: ys).map entryChars) ++ rest) rfl).elim

theorem parseScores_stringify (l : List ScoreEntry)
    (h : ∀ e ∈ l, jsonSafe e.username = true) :
    parseScoresChars (scoresChars l) = some l := by
  cases l with
  | nil => rfl
  | cons x xs =>
    have hhead : ∃ t, joinCommas ((x :: xs).map entryChars) = '\x7b' :: t := by
      cases xs with
      | nil => exact ⟨_, rfl⟩
      | cons y ys => exact ⟨_, rfl⟩
    obtain ⟨t, ht⟩ := hhead
    have hne : joinCommas ((x :: xs).map entryChars) ++ [']'] ≠ [']'] := by
      rw [ht]
      intro hEq
      injection hEq with h1 h2
      exact absurd h1 (by decide)
    show parseScoresChars ('[' :: (joinCommas ((x :: xs).map entryChars) ++ [']'])) = _
    rw [parseScoresChars]
    rw [if_neg hne]
    rw [parseEntriesAux_join (x :: xs) _ [']'] (by simp) h
      (by
        have h1 := joinCommas_length_ge (x :: xs)
        simp only [List.length_append, List.length_cons, List.length_nil] at h1 ⊢
        omega)
      (by intro cs hEq; injection hEq with h1 h2; exact absurd h1 (by decide))]
    rfl

theorem stringifyScores_ne_empty (l : List ScoreEntry) : stringifyScores l ≠ "" := by
  intro hEq
  have := congrArg String.data hEq
  simp [stringifyScores, scoresChars] at this

theorem readStoredScores_stringify (l : List ScoreEntry)
    (h : ∀ e ∈ l, jsonSafe e.username = true) :
    readStoredScores (some (stringifyScores l)) = .ok l := by
  rw [readStoredScores, if_neg (stringifyScores_ne_empty l)]
  have hdata : (stringifyScores l).data = scoresChars l := rfl
  rw [hdata, parseScores_stringify l h]

theorem insertCmp_perm (coin : Nat → Bool) (a : String) :
    ∀ (l : List String) (k : Nat), (insertCmp coin k a l).1.Perm (a :: l) := by
  intro l
  induction l with
  | nil => intro k; simp [insertCmp]
  | cons x xs ih =>
    intro k
    rw [insertCmp]
    split
    · exact List.Perm.refl _
    · show (x :: (insertCmp coin (k + 1) a xs).1).Perm (a :: x :: xs)
      exact (List.Perm.cons x (ih (k + 1))).trans (List.Perm.swap a x xs)

theorem sortCmp_perm (coin : Nat → Bool) :
    ∀ (l : List String) (k : Nat), (sortCmp coin k l).1.Perm l := by
  intro l
  induction l with
  | nil => intro k; simp [sortCmp]
  | cons x xs ih =>
    intro k
    rw [sortCmp]
    show (insertCmp coin (sortCmp coin k xs).2 x (sortCmp coin k xs).1).1.Perm (x :: xs)
    exact (insertCmp_perm coin x _ _).trans (List.Perm.cons x (ih k))

theorem randSort_perm (coin : Nat → Bool) (l : List String) :
    (randSort coin l).Perm l :=
  sortCmp_perm coin l 0

theorem createAnswerOptions_text_perm (coin : Nat → Bool) (c : String)
    (inc : List String) :
    ((createAnswerOptions coin c inc).map AnswerOption.text).Perm (c :: inc) := by
  have h1 : (createAnswerOptions coin c inc).map AnswerOption.text
      = randSort coin (c :: inc) := by
    rw [createAnswerOptions, List.map_map]
    exact List.map_id _
  rw [h1]
  exact randSort_perm coin (c :: inc)

theorem createAnswerOptions_length (coin : Nat → Bool) (c : String)
    (inc : List String) :
    (createAnswerOptions coin c inc).length = 1 + inc.length := by
  have h1 := (randSort_perm coin (c :: inc)).length_eq
  rw [createAnswerOptions, List.length_map, h1, List.length_cons]
  omega

theorem createAnswerOptions_one_correct (coin : Nat → Bool) (c : String)
    (inc : List String) (h : c ∉ inc) :
    (createAnswerOptions coin c inc).countP (fun o => o.isCorrect) = 1 := by
  rw [createAnswerOptions, List.countP_map]
  show (randSort coin (c :: inc)).countP (fun a => a == c) = 1
  rw [(randSort_perm coin (c :: inc)).countP_eq, List.countP_cons]
  have hz : inc.countP (fun a => a == c) = 0 := by
    rw [List.countP_eq_zero]
    intro a ha hEq
    rw [beq_iff_eq] at hEq
    exact h (hEq ▸ ha)
  simp [hz]

theorem displayQuestionsFrom_forall (coins : Nat → Nat → Bool)
    (questions : List Question)
    (hvalid : ∀ q ∈ questions, q.correct_answer ∉ q.incorrect_answers) :
    ∀ i, List.Forall₂ (fun q r =>
        ((r.options.map AnswerOption.text).Perm
          (q.correct_answer :: q.incorrect_answers))
        ∧ r.options.length = 1 + q.incorrect_answers.length
        ∧ r.options.countP (fun o => o.isCorrect) = 1)
      questions (displayQuestionsFrom coins i questions) := by
  induction questions with
  | nil => intro i; exact List.Forall₂.nil
  | cons q qs ih =>
    intro i
    refine List.Forall₂.cons ?_ (ih (fun p hp => hvalid p (by simp [hp])) (i + 1))
    have hq := hvalid q (by simp)
    exact ⟨createAnswerOptions_text_perm (coins i) _ _,
      createAnswerOptions_length (coins i) _ _,
      createAnswerOptions_one_correct (coins i) _ _ hq⟩

/-- C5: for every valid API response (one whose correct answer is not
duplicated among the incorrect answers), `displayQuestions` renders
exactly one block per question, and each block's options are exactly the
correct answer together with the incorrect answers (as a permutation, so
`1 + |incorrect_answers|` selectable choices), with exactly one option
tagged `data-correct="true"`. -/
theorem claim_C5_renderQuestions (coins : Nat → Nat → Bool)
    (questions : List Question)
    (hvalid : ∀ q ∈ questions, q.correct_answer ∉ q.incorrect_answers) :
    (displayQuestions coins questions).length = questions.length ∧
    List.Forall₂ (fun q r =>
        ((r.options.map AnswerOption.text).Perm
          (q.correct_answer :: q.incorrect_answers))
        ∧ r.options.length = 1 + q.incorrect_answers.length
        ∧ r.options.countP (fun o => o.isCorrect) = 1)
      questions (displayQuestions coins questions) := by
  have h := displayQuestionsFrom_forall coins questions hvalid 0
  exact ⟨h.length_eq.symm, h⟩

/-- A fixed comparator stream for concrete evaluations. -/
def witnessCoins : Nat → Nat → Bool := fun _ _ => true

/-- A concrete one-question API response. -/
def witnessQuestions : List Question :=
  [⟨"Capital of France?", "Paris", ["London", "Rome", "Berlin"]⟩]

/-- C5 witness: the theorem applied to a concrete valid response. -/
theorem claim_C5_witness :
    (displayQuestions witnessCoins witnessQuestions).length
      = witnessQuestions.length :=
  (claim_C5_renderQuestions witnessCoins witnessQuestions (by decide)).1

theorem calculateScore_eq_countP_range
    (l : List (RenderedQuestion × Option Nat)) (n : Nat) (hn : l.length ≤ n) :
    l.countP (fun p => selectedCorrect p.1 p.2)
      = (List.range n).countP (fun i =>
          match l[i]? with
          | some p => selectedCorrect p.1 p.2
          | none => false) := by
  induction l generalizing n with
  | nil =>
    rw [List.countP_nil, Eq.comm, List.countP_eq_zero]
    intro i hi
    simp
  | cons x xs ih =>
    cases n with
    | zero => simp at hn
    | succ m =>
      have h1 : ((xs.length : Nat) ≤ m) := by
        simp only [List.length_cons] at hn
        omega
      rw [List.range_succ_eq_map, List.countP_cons, List.countP_cons,
        List.countP_map]
      have h2 : (List.range m).countP ((fun i =>
            match (x :: xs)[i]? with
            | some p => selectedCorrect p.1 p.2
            | none => false) ∘ Nat.succ)
          = (List.range m).countP (fun i =>
            match xs[i]? with
            | some p => selectedCorrect p.1 p.2
            | none => false) := by
        apply List.countP_congr
        intro i hi
        simp [Function.comp]
      rw [h2, ← ih m h1]
      simp

theorem calculateScore_eq_count (rendered : List RenderedQuestion)
    (sel : List (Option Nat)) :
    calculateScore rendered sel = correctlySelectedCount rendered sel := by
  rw [calculateScore, correctlySelectedCount]
  have hlen : (rendered.zip sel).length ≤ rendered.length := by
    rw [List.length_zip]
    omega
  rw [calculateScore_eq_countP_range (rendered.zip sel) rendered.length hlen]
  apply List.countP_congr
  intro i hi
  rw [selectedCorrectAt]

/-- C6: `calculateScore` returns 0 when no question is answered, returns
the number of rendered questions when every question has its correct
choice selected, equals (hence is monotonic in) the number of correctly
selected answers, and never exceeds the number of rendered questions. -/
theorem claim_C6_calculateScore (rendered : List RenderedQuestion) :
    (∀ sel, (∀ s ∈ sel, s = none) → calculateScore rendered sel = 0)
    ∧ (∀ sel, List.Forall₂ (fun r s => selectedCorrect r s = true) rendered sel →
        calculateScore rendered sel = rendered.length)
    ∧ (∀ sel1 sel2,
        correctlySelectedCount rendered sel1 ≤ correctlySelectedCount rendered sel2 →
        calculateScore rendered sel1 ≤ calculateScore rendered sel2)
    ∧ (∀ sel, calculateScore rendered sel ≤ rendered.length) := by
  refine ⟨?_, ?_, ?_, ?_⟩
  · intro sel hnone
    rw [calculateScore, List.countP_eq_zero]
    intro p hp
    have h2 := (List.of_mem_zip hp).2
    rw [hnone p.2 h2]
    simp [selectedCorrect]
  · intro sel hall
    induction hall with
    | nil => rfl
    | cons hrel hrest ih =>
      rename_i r s rs ss
      show calculateScore (r :: rs) (s :: ss) = (r :: rs).length
      rw [calculateScore, List.zip_cons_cons, List.countP_cons]
      rw [calculateScore] at ih
      simp [hrel, ih]
  · intro sel1 sel2 hle
    rw [calculateScore_eq_count, calculateScore_eq_count]
    exact hle
  · intro sel
    calc calculateScore rendered sel ≤ (rendered.zip sel).length :=
        List.countP_le_length _
      _ ≤ rendered.length := by rw [List.length_zip]; omega

/-- A concrete rendered question for evaluations. -/
def witnessRendered : List RenderedQuestion :=
  [⟨"Capital of France?", [⟨"Paris", true⟩, ⟨"London", false⟩]⟩]

/-- C6 witness: the theorem applied at a concrete rendered list and
selection. -/
theorem claim_C6_witness : calculateScore witnessRendered [none] = 0 :=
  (claim_C6_calculateScore witnessRendered).1 [none] (by decide)

theorem uriUnreservedChar_lt (c : Char) (h : uriUnreservedChar c = true) :
    c.toNat < 128 := by
  simp only [uriUnreservedChar, Bool.or_eq_true, Bool.and_eq_true,
    decide_eq_true_eq] at h
  omega

theorem uriUnreservedChar_props (c : Char) (h : uriUnreservedChar c = true) :
    c ≠ '%' ∧ c ≠ ';' ∧ isJsSpace c = false := by
  refine ⟨?_, ?_, ?_⟩
  · intro hEq
    rw [hEq] at h
    exact absurd h (by decide)
  · intro hEq
    rw [hEq] at h
    exact absurd h (by decide)
  · cases hsp : isJsSpace c with
    | false => rfl
    | true =>
      exfalso
      simp only [isJsSpace, Bool.or_eq_true, decide_eq_true_eq] at hsp
      rcases hsp with ⟨⟨⟨⟨h1 | h1⟩ | h1⟩ | h1⟩ | h1⟩ | h1 <;>
        (rw [h1] at h; exact absurd h (by decide))

theorem encodeChars_unreserved (cs : List Char)
    (h : ∀ c ∈ cs, uriUnreservedChar c = true) :
    (cs.map encodeChar).flatten = cs := by
  induction cs with
  | nil => rfl
  | cons c rest ih =>
    rw [List.map_cons, List.flatten_cons, ih (fun a ha => h a (by simp [ha]))]
    rw [encodeChar, if_pos (h c (by simp))]
    rfl

theorem encodeURIComponent_unreserved (s : String)
    (h : ∀ c ∈ s.data, uriUnreservedChar c = true) :
    encodeURIComponent s = s := by
  rw [encodeURIComponent, encodeChars_unreserved s.data h]

theorem utf8Bytes_ascii (c : Char) (h : c.toNat < 128) : utf8Bytes c = [c.toNat] := by
  rw [utf8Bytes]
  exact if_pos h

theorem percentDecodeBytes_cons_ne (c : Char) (rest : List Char) (h : c ≠ '%') :
    percentDecodeBytes (c :: rest) = utf8Bytes c ++ percentDecodeBytes rest := by
  rw [percentDecodeBytes.eq_def]
  simp only []
  rw [if_neg h]

theorem percentDecodeBytes_ascii (cs : List Char)
    (h : ∀ c ∈ cs, c ≠ '%' ∧ c.toNat < 128) :
    percentDecodeBytes cs = cs.map Char.toNat := by
  induction cs with
  | nil => rfl
  | cons c rest ih =>
    obtain ⟨h1, h2⟩ := h c (by simp)
    rw [percentDecodeBytes_cons_ne c rest h1, ih (fun a ha => h a (by simp [ha])),
      utf8Bytes_ascii c h2, List.map_cons, List.singleton_append]

theorem utf8DecodeAux_map (cs : List Char) :
    ∀ fuel, cs.length < fuel → (∀ c ∈ cs, c.toNat < 128) →
      utf8DecodeAux fuel (cs.map Char.toNat) = cs := by
  induction cs with
  | nil =>
    intro fuel hfuel hascii
    cases fuel with
    | zero => omega
    | succ f => rfl
  | cons c rest ih =>
    intro fuel hfuel hascii
    cases fuel with
    | zero => omega
    | succ f =>
      have hstep : utf8DecodeStep c.toNat (rest.map Char.toNat)
          = (Char.ofNat c.toNat, rest.map Char.toNat) := by
        rw [utf8DecodeStep.eq_def]
        exact if_pos (hascii c (by simp))
      rw [List.map_cons, utf8DecodeAux, hstep]
      rw [Char.ofNat_toNat,
        ih f (by simp only [List.length_cons] at hfuel; omega)
          (fun a ha => hascii a (by simp [ha]))]

theorem utf8DecodeBytes_map (cs : List Char) (h : ∀ c ∈ cs, c.toNat < 128) :
    utf8DecodeBytes (cs.map Char.toNat) = cs := by
  rw [utf8DecodeBytes]
  exact utf8DecodeAux_map cs _ (by simp) h

theorem decode_ascii_chars (cs : List Char)
    (h : ∀ c ∈ cs, c ≠ '%' ∧ c.toNat < 128) :
    utf8DecodeBytes (percentDecodeBytes cs) = cs := by
  rw [percentDecodeBytes_ascii cs h, utf8DecodeBytes_map cs (fun c hc => (h c hc).2)]

theorem splitOnSemicolon_no_semi (cs : List Char) (h : ∀ c ∈ cs, c ≠ ';') :
    splitOnSemicolon cs = [cs] := by
  induction cs with
  | nil => rfl
  | cons c rest ih =>
    rw [splitOnSemicolon, if_neg (h c (by simp)),
      ih (fun a ha => h a (by simp [ha]))]

theorem dropWhile_none (p : Char → Bool) (cs : List Char)
    (h : ∀ c ∈ cs, p c = false) :
    cs.dropWhile p = cs := by
  cases cs with
  | nil => rfl
  | cons c rest =>
    rw [List.dropWhile_cons, if_neg]
    simp [h c (by simp)]

theorem trimChars_no_space (cs : List Char) (h : ∀ c ∈ cs, isJsSpace c = false) :
    trimChars cs = cs := by
  rw [trimChars, dropWhile_none isJsSpace cs h,
    dropWhile_none isJsSpace cs.reverse (fun c hc => h c (List.mem_reverse.mp hc)),
    List.reverse_reverse]

theorem isPrefixOf_self_append (p t : List Char) : p.isPrefixOf (p ++ t) = true := by
  induction p with
  | nil => exact List.isPrefixOf_nil_left
  | cons a as ih =>
    rw [List.cons_append, List.isPrefixOf_cons₂, ih]
    simp

theorem isPrefixOf_nil_false (p : List Char) (hp : p ≠ []) :
    p.isPrefixOf ([] : List Char) = false := by
  cases p with
  | nil => exact absurd rfl hp
  | cons a as => rfl

theorem getCookie_single (t : Int) (n v : String) (e : Int) (h1 : t < e)
    (hn : ∀ c ∈ n.data, uriUnreservedChar c = true)
    (hv : ∀ c ∈ v.data, uriUnreservedChar c = true) :
    getCookie t [⟨n, v, e⟩] n = some v := by
  have hA : ∀ c ∈ n.data ++ '=' :: v.data,
      c ≠ '%' ∧ c.toNat < 128 ∧ c ≠ ';' ∧ isJsSpace c = false := by
    intro c hc
    rw [List.mem_append, List.mem_cons] at hc
    rcases hc with hc | hc | hc
    · have h2 := hn c hc
      obtain ⟨p1, p2, p3⟩ := uriUnreservedChar_props c h2
      exact ⟨p1, uriUnreservedChar_lt c h2, p2, p3⟩
    · subst hc
      exact ⟨by decide, by decide, by decide, by decide⟩
    · have h2 := hv c hc
      obtain ⟨p1, p2, p3⟩ := uriUnreservedChar_props c h2
      exact ⟨p1, uriUnreservedChar_lt c h2, p2, p3⟩
  have hjar : cookieStringChars t [⟨n, v, e⟩] = n.data ++ '=' :: v.data := by
    simp [cookieStringChars, h1, joinCookiePairs]
  simp only [getCookie]
  rw [hjar, decode_ascii_chars _ (fun c hc => ⟨(hA c hc).1, (hA c hc).2.1⟩),
    splitOnSemicolon_no_semi _ (fun c hc => (hA c hc).2.2.1),
    List.findSome?_cons]
  rw [trimChars_no_space _ (fun c hc => (hA c hc).2.2.2)]
  have hshape : n.data ++ '=' :: v.data = (n.data ++ ['=']) ++ v.data := by
    simp
  rw [hshape, isPrefixOf_self_append]
  simp only [if_true, List.drop_left]

theorem getCookie_no_live (t : Int) (jar : List Cookie) (name : String)
    (h : jar.filter (fun c => t < c.expires) = []) :
    getCookie t jar name = none := by
  have hjar : cookieStringChars t jar = [] := by
    rw [cookieStringChars, h]
    rfl
  simp only [getCookie]
  rw [hjar]
  rw [show utf8DecodeBytes (percentDecodeBytes []) = [] from rfl]
  rw [show splitOnSemicolon [] = [[]] from rfl]
  rw [List.findSome?_cons]
  have hpre : (name.data ++ ['=']).isPrefixOf (trimChars []) = false :=
    isPrefixOf_nil_false _ (by simp)
  simp [hpre]

/-- C9 counterexample: a value containing `";"` does not survive the
round-trip, because `getCookie` URI-decodes the whole cookie string before
splitting on `";"`: setting `"u"` to `"a;b"` and reading it back yields
`"a"`. -/
theorem claim_C9_counterexample :
    getCookie 1000 (setCookie 1000 [] "u" "a;b" 7) "u" = some "a"
    ∧ getCookie 1000 (setCookie 1000 [] "u" "a;b" 7) "u" ≠ some "a;b" := by
  constructor
  · decide
  · decide

/-- C9 (amended): for cookie names and values made of URI-unreserved
characters (which percent-encoding leaves unchanged), `set` then `get`
before expiry returns the stored value; after `clear` the lookup is
`none` regardless of the TTL previously set; and a never-stored name
reads as `none`. -/
theorem claim_C9_session_roundtrip (name value : String) (days now t u : Int)
    (hn : ∀ c ∈ name.data, uriUnreservedChar c = true)
    (hv : ∀ c ∈ value.data, uriUnreservedChar c = true)
    (hbefore : t < now + days * 86400000)
    (hafter : 0 ≤ u) :
    getCookie t (setCookie now [] name value days) name = some value
    ∧ getCookie u (clearCookie (setCookie now [] name value days) name) name = none
    ∧ getCookie t ([] : List Cookie) name = none := by
  have hen : encodeURIComponent name = name := encodeURIComponent_unreserved name hn
  have hev : encodeURIComponent value = value := encodeURIComponent_unreserved value hv
  have hset : setCookie now [] name value days
      = [⟨name, value, now + days * 86400000⟩] := by
    rw [setCookie, hen, hev]
    rfl
  refine ⟨?_, ?_, ?_⟩
  · rw [hset]
    exact getCookie_single t name value _ hbefore hn hv
  · rw [hset]
    have hclear : clearCookie [(⟨name, value, now + days * 86400000⟩ : Cookie)] name
        = [⟨name, "", 0⟩] := by
      rw [clearCookie, hen]
      simp [jarUpsert]
    rw [hclear]
    apply getCookie_no_live
    simp only [List.filter, decide_eq_true_eq]
    have : ¬ (u < (0 : Int)) := by omega
    simp [this]
  · apply getCookie_no_live
    rfl

/-- C9 witness: the amended round-trip at concrete inputs. -/
theorem claim_C9_witness :
    getCookie 1 (setCookie 0 [] "u" "Alice" 7) "u" = some "Alice" :=
  (claim_C9_session_roundtrip "u" "Alice" 7 0 1 5 (by decide) (by decide)
    (by decide) (by decide)).1

/-- C8: for every well-formed prior ledger and every entry, `saveScore`
appends the entry at the end (the stored string becomes the
serialization of `prior ++ [e]`, also from an empty store), reading back
yields exactly `prior ++ [e]`, whose last element is `e` and whose first
`|prior|` elements are the prior entries unchanged and in order. -/
theorem claim_C8_append_roundtrip (l : List ScoreEntry) (e : ScoreEntry)
    (h : (∀ x ∈ l, jsonSafe x.username = true) ∧ jsonSafe e.username = true) :
    saveScore (some (stringifyScores l)) e.username e.score
      = .ok (some (stringifyScores (l ++ [e])))
    ∧ saveScore none e.username e.score = .ok (some (stringifyScores [e]))
    ∧ readStoredScores (some (stringifyScores (l ++ [e]))) = .ok (l ++ [e])
    ∧ (l ++ [e]).getLast? = some e
    ∧ (l ++ [e]).take l.length = l := by
  obtain ⟨h1, h2⟩ := h
  have hsafe2 : ∀ x ∈ l ++ [e], jsonSafe x.username = true := by
    intro x hx
    rcases List.mem_append.mp hx with hx | hx
    · exact h1 x hx
    · simp only [List.mem_singleton] at hx
      subst hx
      exact h2
  refine ⟨?_, ?_, ?_, ?_, ?_⟩
  · rw [saveScore, readStoredScores_stringify l h1]
  · rfl
  · exact readStoredScores_stringify _ hsafe2
  · exact List.getLast?_concat l
  · exact List.take_left l [e]

/-- C8 witness: two rounds for Bob, scores 3 then 7. -/
theorem claim_C8_witness :
    saveScore (some (stringifyScores [⟨"Bob", 3⟩])) "Bob" 7
      = .ok (some (stringifyScores ([⟨"Bob", 3⟩] ++ [⟨"Bob", 7⟩]))) :=
  (claim_C8_append_roundtrip [⟨"Bob", 3⟩] ⟨"Bob", 7⟩ ⟨by decide, by decide⟩).1

/-- C4 counterexample: a stored ledger string that is not JSON makes the
read path throw (`JSON.parse` raises a `SyntaxError` that nothing
catches) instead of returning the empty sequence the claim promises. -/
theorem claim_C4_counterexample :
    readStoredScores (some "oops") = .error "SyntaxError: Unexpected token" := by
  rfl

/-- C4 (amended): reading the ledger returns the full stored sequence,
and the empty sequence when nothing (or an empty string) is stored; but
a stored string that fails to deserialize as JSON raises the parse error
to the caller instead of being treated as no history. -/
theorem claim_C4_read_ledger (l : List ScoreEntry)
    (h : ∀ x ∈ l, jsonSafe x.username = true) :
    readStoredScores none = .ok []
    ∧ readStoredScores (some "") = .ok []
    ∧ readStoredScores (some (stringifyScores l)) = .ok l
    ∧ ∃ s msg, readStoredScores (some s) = Except.error msg :=
  ⟨rfl, rfl, readStoredScores_stringify l h,
    "oops", "SyntaxError: Unexpected token", rfl⟩

/-- C4 witness: the amended read-back at a concrete ledger. -/
theorem claim_C4_witness :
    readStoredScores (some (stringifyScores [⟨"Ann", 2⟩])) = .ok [⟨"Ann", 2⟩] :=
  (claim_C4_read_ledger [⟨"Ann", 2⟩] (by decide)).2.2.1

/-- C7: submitting with a username that trims to empty alerts the user
and aborts: the ledger store, the cookie jar and the score table are
unchanged, and no exception escapes. -/
theorem claim_C7_empty_username (st : AppState) (h : jsTrim st.usernameField = "") :
    (handleFormSubmit st).1.store = st.store
    ∧ (handleFormSubmit st).1.jar = st.jar
    ∧ (handleFormSubmit st).1.tableRows = st.tableRows
    ∧ (handleFormSubmit st).1.alerts
        = st.alerts ++ ["Please enter your name before ending the game"]
    ∧ (handleFormSubmit st).2 = none := by
  simp [handleFormSubmit, h]

/-- A submission state whose username input holds only whitespace. -/
def witnessStateC7 : AppState := { initialState with usernameField := " " }

/-- C7 witness: the theorem at a concrete whitespace-only submission. -/
theorem claim_C7_witness :
    (handleFormSubmit witnessStateC7).1.store = witnessStateC7.store
    ∧ (handleFormSubmit witnessStateC7).2 = none :=
  ⟨(claim_C7_empty_username witnessStateC7 (by decide)).1,
    (claim_C7_empty_username witnessStateC7 (by decide)).2.2.2.2⟩

/-- C10: when the fetch fails, the catch handler leaves the loading
indicator hidden, the question container untouched (hence still empty),
and lets no exception escape to the page. -/
theorem claim_C10_fetch_error (coins : Nat → Nat → Bool) (st : AppState)
    (e : String) (h : st.rendered = []) :
    (fetchQuestionsComplete coins st (Except.error e)).2 = none
    ∧ (fetchQuestionsComplete coins st (Except.error e)).1.loadingHidden = true
    ∧ (fetchQuestionsComplete coins st (Except.error e)).1.rendered = [] := by
  refine ⟨rfl, rfl, ?_⟩
  simp [fetchQuestionsComplete, showLoading, h]

/-- C10 witness: a concrete network failure on the blank page. -/
theorem claim_C10_witness :
    (fetchQuestionsComplete witnessCoins initialState
      (Except.error "TypeError: Failed to fetch")).1.rendered = [] :=
  (claim_C10_fetch_error witnessCoins initialState "TypeError: Failed to fetch"
    rfl).2.2

/-- The batch a superseded fetch would deliver. -/
def staleQuestions : List Question := [⟨"Q1", "A", ["B"]⟩]

/-- C3 counterexample: a fetch started before a new-player reset and
completing after it does overwrite the freshly cleared question
container — after the trace start-fetch, new-player, stale-completion
the container is not empty, contrary to the claimed staleness guard. -/
theorem claim_C3_counterexample :
    (runEvents initialState
      [Ev.fetchStart, Ev.newPlayerClick,
        Ev.fetchComplete witnessCoins (Except.ok staleQuestions)]).rendered ≠ [] := by
  decide

/-- C3 (amended): no staleness guard exists.  A superseded fetch that
completes after the new-player reset renders its own results into the
container (last write wins), leaving it non-empty whenever the stale
batch is. -/
theorem claim_C3_no_guard (coins : Nat → Nat → Bool) (st : AppState)
    (qs : List Question) (h : qs ≠ []) :
    (runEvents st [Ev.fetchStart, Ev.newPlayerClick,
        Ev.fetchComplete coins (Except.ok qs)]).rendered
      = displayQuestions coins qs
    ∧ displayQuestions coins qs ≠ [] := by
  constructor
  · rfl
  · cases qs with
    | nil => exact absurd rfl h
    | cons q qs2 =>
      rw [displayQuestions, displayQuestionsFrom]
      simp

/-- C3 witness: the amended statement at a concrete stale batch. -/
theorem claim_C3_witness :
    (runEvents initialState [Ev.fetchStart, Ev.newPlayerClick,
        Ev.fetchComplete witnessCoins (Except.ok staleQuestions)]).rendered
      = displayQuestions witnessCoins staleQuestions :=
  (claim_C3_no_guard witnessCoins initialState staleQuestions (by decide)).1

/-- A page-load state whose persisted ledger already holds one entry. -/
def ledgerStateC1 : AppState :=
  { initialState with store := some "[\x7b\"username\":\"Bob\",\"score\":3\x7d]" }

/-- C1: on page load with a non-empty persisted ledger, initialization
stops with a `ReferenceError` at the `displayScores()` call (the function
is never defined), so the score table stays empty even though the stored
ledger reads back one entry — the rendered rows do not equal the stored
sequence. -/
theorem claim_C1_ledger_render_bug :
    (runInit ledgerStateC1).raised
      = some "ReferenceError: displayScores is not defined"
    ∧ (runInit ledgerStateC1).st.tableRows = []
    ∧ readStoredScores ledgerStateC1.store = .ok [⟨"Bob", 3⟩] := by
  exact ⟨rfl, rfl, rfl⟩

/-- C2: on every page load the initializer raises (`displayScores` does
not resolve to any defined function), and control never reaches the
statements registering the form-submit and new-player handlers: no
listener is registered. -/
theorem claim_C2_init_raises (st : AppState) :
    (runInit st).raised = some "ReferenceError: displayScores is not defined"
    ∧ (runInit st).listeners = [] := by
  constructor <;> rfl

end Script
